import Mathlib

/-!
Verification development for the twitter_scraper repository.

The Python modules under scrape/merge/schema responsibility are shallowly
embedded below:
  - scrapers/twitter_scraper.py        (merge + enrichment pipeline)
  - scraper_types/twitter_scraper_meta.py       (structured-field strategy)
  - scraper_types/twitter_scraper_visible_text.py (visible-text strategy)
  - common/db_utils.py                 (filter_by_schema, SCHEMA)

Modelling conventions, stated once here:
  - Python values reachable in the pipeline are modelled by the inductive
    type Val (None, str, int, list, dict).  Python dicts are insertion
    ordered association lists with unique keys; dict.get, dict.update and
    item assignment are modelled with that discipline.
  - Browser pages are external collaborators; they are modelled as oracles
    giving, per URL, either the text captured by the DOM reads or the
    exception raised, exactly at the boundary where the source touches
    playwright.
  - The epoch clock int(time.time()) is passed as an explicit parameter.
  - Regular-expression matching (re.finditer / re.findall / re.match) is
    implemented directly for the concrete patterns of the source, with
    Python's leftmost, greedy, backtracking semantics; character classes
    are read over ASCII (the claims only exercise ASCII inputs).
  - CPython's set iteration order is hash-randomized; list(set(...)) is
    modelled as first-seen-order deduplication.  No confirmed claim
    depends on that order; where the source's use of list(set(...))
    itself decides a claim it is reported as such, not proved around.
-/

namespace TwitterScraper

/-- Model of the Python values that flow through the pipeline:
None, str, int, list, dict (insertion-ordered association list). -/
inductive Val where
  | vnone : Val
  | vstr : String → Val
  | vint : Int → Val
  | vlist : List Val → Val
  | vdict : List (String × Val) → Val
deriving Repr

/-- Structural equality on Val, modelling Python == on these values. -/
def Val.beq : Val → Val → Bool
  | .vnone, .vnone => true
  | .vstr a, .vstr b => a == b
  | .vint a, .vint b => a == b
  | .vlist xs, .vlist ys =>
      let rec beqL : List Val → List Val → Bool
        | [], [] => true
        | x :: xs, y :: ys => x.beq y && beqL xs ys
        | _, _ => false
      beqL xs ys
  | .vdict xs, .vdict ys =>
      let rec beqD : List (String × Val) → List (String × Val) → Bool
        | [], [] => true
        | (k, x) :: xs, (l, y) :: ys => k == l && x.beq y && beqD xs ys
        | _, _ => false
      beqD xs ys
  | _, _ => false

instance : BEq Val := ⟨Val.beq⟩

mutual
theorem Val.beq_refl : (v : Val) → v.beq v = true
  | .vnone => rfl
  | .vstr a => by simp [Val.beq]
  | .vint a => by simp [Val.beq]
  | .vlist xs => by simpa [Val.beq] using Val.beqL_refl xs
  | .vdict xs => by simpa [Val.beq] using Val.beqD_refl xs

theorem Val.beqL_refl : (xs : List Val) → Val.beq.beqL xs xs = true
  | [] => rfl
  | x :: xs => by simp [Val.beq.beqL, Val.beq_refl x, Val.beqL_refl xs]

theorem Val.beqD_refl : (xs : List (String × Val)) → Val.beq.beqD xs xs = true
  | [] => rfl
  | (k, x) :: xs => by simp [Val.beq.beqD, Val.beq_refl x, Val.beqD_refl xs]
end

mutual
theorem Val.eq_of_beq : {a b : Val} → a.beq b = true → a = b
  | .vnone, .vnone, _ => rfl
  | .vstr a, .vstr b, h => by simp [Val.beq] at h; simp [h]
  | .vint a, .vint b, h => by simp [Val.beq] at h; simp [h]
  | .vlist xs, .vlist ys, h => by
      simp only [Val.beq] at h
      exact congrArg Val.vlist (Val.eqL_of_beq h)
  | .vdict xs, .vdict ys, h => by
      simp only [Val.beq] at h
      exact congrArg Val.vdict (Val.eqD_of_beq h)

theorem Val.eqL_of_beq : {xs ys : List Val} → Val.beq.beqL xs ys = true → xs = ys
  | [], [], _ => rfl
  | x :: xs, y :: ys, h => by
      simp only [Val.beq.beqL, Bool.and_eq_true] at h
      rw [Val.eq_of_beq h.1, Val.eqL_of_beq h.2]

theorem Val.eqD_of_beq : {xs ys : List (String × Val)} → Val.beq.beqD xs ys = true → xs = ys
  | [], [], _ => rfl
  | (k, x) :: xs, (l, y) :: ys, h => by
      simp only [Val.beq.beqD, Bool.and_eq_true] at h
      obtain ⟨⟨hk, hx⟩, hd⟩ := h
      have hk' : k = l := by simpa using hk
      rw [hk', Val.eq_of_beq hx, Val.eqD_of_beq hd]
end

instance : LawfulBEq Val where
  eq_of_beq := Val.eq_of_beq
  rfl := Val.beq_refl _

instance : DecidableEq Val := fun a b =>
  match h : a.beq b with
  | true => .isTrue (Val.eq_of_beq h)
  | false => .isFalse (fun hab => by subst hab; rw [Val.beq_refl] at h; cases h)

/-- A Python dict with string keys, as an insertion-ordered association list. -/
abbrev Rec := List (String × Val)

/-- Python dict lookup: d.get(k) as an Option (None result vs. absent key
are distinguished where the source distinguishes them). -/
def Rec.get (r : Rec) (k : String) : Option Val :=
  match r with
  | [] => none
  | (k', v) :: rest => if k' = k then some v else Rec.get rest k

/-- Python d.get(k) with default None: an absent key and a stored None are
the same value on the Python side. -/
def Rec.getd (r : Rec) (k : String) : Val :=
  (r.get k).getD .vnone

/-- Python item assignment d[k] = v: replaces in place when the key exists,
appends at the end otherwise (dict insertion-order semantics). -/
def Rec.set (r : Rec) (k : String) (v : Val) : Rec :=
  match r with
  | [] => [(k, v)]
  | (k', v') :: rest => if k' = k then (k', v) :: rest else (k', v') :: Rec.set rest k v

/-- Python d.update(other): item-assign every pair of other, in order. -/
def Rec.update (r other : Rec) : Rec :=
  other.foldl (fun acc kv => acc.set kv.1 kv.2) r

/-- Python truthiness of a Val. -/
def truthy : Val → Bool
  | .vnone => false
  | .vstr s => !s.isEmpty
  | .vint n => n != 0
  | .vlist xs => !xs.isEmpty
  | .vdict xs => !xs.isEmpty

theorem Rec.get_set_self (r : Rec) (k : String) (v : Val) :
    (r.set k v).get k = some v := by
  induction r with
  | nil => simp [Rec.set, Rec.get]
  | cons kv rest ih =>
      obtain ⟨k', v'⟩ := kv
      by_cases h : k' = k <;> simp [Rec.set, Rec.get, h, ih]

theorem Rec.get_set_ne (r : Rec) (k k2 : String) (v : Val) (h : k ≠ k2) :
    (r.set k v).get k2 = r.get k2 := by
  induction r with
  | nil => simp [Rec.set, Rec.get, h]
  | cons kv rest ih =>
      obtain ⟨k', v'⟩ := kv
      by_cases h1 : k' = k
      · subst h1; simp [Rec.set, Rec.get, h]
      · by_cases h2 : k' = k2 <;> simp [Rec.set, Rec.get, h1, h2, Ne.symm h, ih]

theorem Rec.get_append (a b : Rec) (k : String) :
    Rec.get (a ++ b) k = (Rec.get a k <|> Rec.get b k) := by
  induction a with
  | nil => simp [Rec.get]
  | cons kv rest ih =>
      obtain ⟨k', v'⟩ := kv
      by_cases h : k' = k <;> simp [Rec.get, h, ih]

/-- Rec.get after an update: the update's last binding for the key wins
(first binding of the reversed list), falling back to the original dict. -/
theorem Rec.get_update (r other : Rec) (k : String) :
    (r.update other).get k = ((Rec.get other.reverse k).map some).getD (r.get k) := by
  induction other generalizing r with
  | nil => simp [Rec.update, Rec.get]
  | cons kv rest ih =>
      obtain ⟨k', v'⟩ := kv
      show (Rec.update (r.set k' v') rest).get k = _
      rw [ih, List.reverse_cons, Rec.get_append]
      by_cases h : k' = k
      · subst h
        cases hr : Rec.get rest.reverse k' <;>
          simp [Rec.get, hr, Rec.get_set_self]
      · cases hr : Rec.get rest.reverse k <;>
          simp [Rec.get, h, hr, Rec.get_set_ne r k' k v' h]

/-! Text utilities shared by both strategies. -/

/-- Whitespace for the (ASCII reading of the) Python regex class backslash-s. -/
def isSpaceChar (c : Char) : Bool :=
  c = ' ' || c = '\t' || c = '\n' || c = '\x0d' || c = '\x0b' || c = '\x0c'

/-- Python sub-in-string test: sub occurs as a prefix of cs. -/
def startsWithL : List Char → List Char → Bool
  | [], _ => true
  | _, [] => false
  | c :: cs, d :: ds => c = d && startsWithL cs ds

/-- Python substring containment (the in operator on str). -/
def containsSubL (sub : List Char) : List Char → Bool
  | [] => sub.isEmpty
  | c :: rest => startsWithL sub (c :: rest) || containsSubL sub rest

def containsSub (s sub : String) : Bool := containsSubL sub.data s.data

/-- twitter_scraper_meta._dedupe: order-preserving deduplication. -/
def dedupe (xs : List String) : List String :=
  go [] xs
where
  go (seen : List String) : List String → List String
    | [] => []
    | x :: rest => if seen.contains x then go seen rest else x :: go (x :: seen) rest

/-- twitter_scraper_visible_text._dedupe_keep_order: drops falsy (empty)
strings and duplicates, preserving first occurrence order. -/
def dedupe_keep_order (xs : List String) : List String :=
  go [] xs
where
  go (seen : List String) : List String → List String
    | [] => []
    | x :: rest =>
        if !x.isEmpty && !seen.contains x then x :: go (x :: seen) rest
        else go seen rest

/-- Python list(set(xs)) over strings.  CPython's set iteration order is
hash-randomized; the embedding fixes first-seen order (see header note). -/
def pySetList (xs : List String) : List String :=
  go [] xs
where
  go (seen : List String) : List String → List String
    | [] => []
    | x :: rest => if seen.contains x then go seen rest else x :: go (x :: seen) rest

/-- Python list(set(xs)) over Vals (enrichment step in scrapers/twitter_scraper.py). -/
def pySetListV (xs : List Val) : List Val :=
  go [] xs
where
  go (seen : List Val) : List Val → List Val
    | [] => []
    | x :: rest => if seen.contains x then go seen rest else x :: go (x :: seen) rest

/-- twitter_scraper_visible_text._norm: replace non-breaking spaces, collapse
whitespace runs to a single space, and strip the ends. -/
def collapseWsF : Nat → List Char → List Char
  | _, [] => []
  | 0, _ :: _ => []
  | fuel + 1, c :: rest =>
      if isSpaceChar c then ' ' :: collapseWsF fuel (rest.dropWhile isSpaceChar)
      else c :: collapseWsF fuel rest

/-- The driver recursion consumes at least one character per step, so fuel
equal to the input length makes the fuel bound unreachable. -/
def collapseWs (cs : List Char) : List Char := collapseWsF cs.length cs

def trimWsL (cs : List Char) : List Char :=
  ((cs.dropWhile isSpaceChar).reverse.dropWhile isSpaceChar).reverse

/-- Python str.strip() over the ASCII whitespace the pipeline meets. -/
def pyStrip (s : String) : String := String.mk (trimWsL s.data)

/-- Python str.lower() over ASCII. -/
def lowerCh (c : Char) : Char :=
  if 'A' ≤ c && c ≤ 'Z' then Char.ofNat (c.toNat + 32) else c

def pyLower (s : String) : String := String.mk (s.data.map lowerCh)

def norm (s : String) : String :=
  String.mk (trimWsL (collapseWs (s.data.map (fun c => if c = '\xa0' then ' ' else c))))

/-! Regular-expression scanners.  Each Python pattern of the source is
implemented directly with re's leftmost, greedy, backtracking semantics. -/

/-- Generic re.finditer driver: at each position try a match; on success emit
the matched text and resume after it, otherwise advance one character.  All
patterns below match at least one character, so the max with 1 never bites.
The recursion consumes at least one character per step; fuel equal to the
input length (supplied by the wrapper below) makes the fuel bound
unreachable. -/
def scanWithF (tryM : List Char → Option Nat) : Nat → List Char → List String
  | _, [] => []
  | 0, _ :: _ => []
  | fuel + 1, c :: rest =>
      match tryM (c :: rest) with
      | some n => String.mk ((c :: rest).take n) :: scanWithF tryM fuel ((c :: rest).drop (max n 1))
      | none => scanWithF tryM fuel rest

def scanWith (tryM : List Char → Option Nat) (cs : List Char) : List String :=
  scanWithF tryM cs.length cs

/-- Local-part class of the meta email pattern. -/
def emLCls (c : Char) : Bool :=
  c.isAlpha || c.isDigit || c = '.' || c = '_' || c = '%' || c = '+' || c = '-'

/-- Domain class of the meta email pattern. -/
def emDCls (c : Char) : Bool := c.isAlpha || c.isDigit || c = '.' || c = '-'

/-- Backtracking search for the domain split: the greedy one-or-more domain
run gives back characters until a literal dot followed by at least tmin
letters is found; j counts down from the run length. -/
def dotSplit (cs2 : List Char) (tmin : Nat) : Nat → Option (Nat × Nat)
  | 0 => none
  | j + 1 =>
      if cs2.getD (j + 1) ' ' = '.' then
        let t := ((cs2.drop (j + 2)).takeWhile Char.isAlpha).length
        if tmin ≤ t then some (j + 1, t) else dotSplit cs2 tmin j
      else dotSplit cs2 tmin j

/-- One match attempt of the meta email pattern
local at-sign domain dot letters, returning the match length. -/
def tryEmailMeta (cs : List Char) : Option Nat :=
  let l := (cs.takeWhile emLCls).length
  if l = 0 then none
  else
    match cs.drop l with
    | '@' :: cs2 =>
        let d := (cs2.takeWhile emDCls).length
        (dotSplit cs2 2 (d - 1)).map (fun jt => l + 1 + jt.1 + 1 + jt.2)
    | _ => none

/-- Inner class of the meta phone pattern: digits, whitespace, parens, dot, dash. -/
def phCls (c : Char) : Bool :=
  c.isDigit || isSpaceChar c || c = '(' || c = ')' || c = '.' || c = '-'

/-- Backtracking for the greedy eight-or-more inner run of the meta phone
pattern: give back until the next character is the required final digit. -/
def phoneInner (rest : List Char) : Nat → Option Nat
  | 0 => none
  | j + 1 =>
      if j + 1 < 8 then none
      else if (rest.getD (j + 1) ' ').isDigit then some (j + 1)
      else phoneInner rest j

def tryPhoneCore (cs : List Char) : Option Nat :=
  match cs with
  | c :: rest =>
      if c.isDigit then
        let r := (rest.takeWhile phCls).length
        (phoneInner rest r).map (fun j => 1 + j + 1)
      else none
  | [] => none

/-- One match attempt of the meta phone pattern: optional plus, digit,
eight-or-more inner characters, final digit. -/
def tryPhoneMeta (cs : List Char) : Option Nat :=
  match cs with
  | '+' :: rest => (tryPhoneCore rest).map (· + 1)
  | _ => tryPhoneCore cs

/-- twitter_scraper_meta._contacts result. -/
structure Contacts where
  emails : List String
  phones : List String
deriving Repr, DecidableEq

/-- twitter_scraper_meta._contacts: finditer both patterns over the text and
deduplicate through a set (see the header note on set ordering). -/
def contacts (text : String) : Contacts :=
  if text.isEmpty then ⟨[], []⟩
  else
    ⟨pySetList (scanWith tryEmailMeta text.data),
     pySetList (scanWith tryPhoneMeta text.data)⟩

/-! Visible-text strategy patterns (EMAIL_RE, PHONE_RE, HASH_RE). -/

/-- Character class of EMAIL_RE in twitter_scraper_visible_text.py,
case-insensitive: letters, digits, dot, dash, plus, underscore. -/
def emVCls (c : Char) : Bool :=
  c.isAlpha || c.isDigit || c = '.' || c = '-' || c = '+' || c = '_'

/-- One match attempt of EMAIL_RE: local at-sign domain dot letters,
with a one-or-more letter tail. -/
def tryEmailVis (cs : List Char) : Option Nat :=
  let l := (cs.takeWhile emVCls).length
  if l = 0 then none
  else
    match cs.drop l with
    | '@' :: cs2 =>
        let d := (cs2.takeWhile emVCls).length
        (dotSplit cs2 1 (d - 1)).map (fun jt => l + 1 + jt.1 + 1 + jt.2)
    | _ => none

/-- Word class of HASH_RE (ASCII reading of regex word characters). -/
def wordCls (c : Char) : Bool := c.isAlpha || c.isDigit || c = '_'

def tryHash (cs : List Char) : Option Nat :=
  match cs with
  | '#' :: rest =>
      let n := (rest.takeWhile wordCls).length
      if n = 0 then none else some (n + 1)
  | _ => none

/-- Separator class of PHONE_RE: dash, dot, whitespace. -/
def pvSep (c : Char) : Bool := c = '-' || c = '.' || isSpaceChar c

/-- Optional single character, greedy: try consuming it, else continue without. -/
def optChThen (p : Char → Bool) (k : List Char → Option Nat) (cs : List Char) : Option Nat :=
  (match cs with
   | c :: rest => if p c then (k rest).map (· + 1) else none
   | [] => none) <|> k cs

/-- Exactly n digits, then continue. -/
def exactDigitsThen : Nat → (List Char → Option Nat) → List Char → Option Nat
  | 0, k, cs => k cs
  | n + 1, k, cs =>
      match cs with
      | c :: rest => if c.isDigit then (exactDigitsThen n k rest).map (· + 1) else none
      | [] => none

/-- The tail of PHONE_RE after the optional country-code group:
sep? lparen? three digits rparen? sep? three digits sep? four digits. -/
def phoneVisRest : List Char → Option Nat :=
  optChThen pvSep (optChThen (· = '(')
    (exactDigitsThen 3 (optChThen (· = ')')
      (optChThen pvSep (exactDigitsThen 3 (optChThen pvSep
        (exactDigitsThen 4 (fun _ => some 0))))))))

/-- The country-code group of PHONE_RE: one to three digits, greedy, then the
rest of the pattern; returns digit count and rest length. -/
def phoneVisDigits13 (cs : List Char) : Option (Nat × Nat) :=
  (if (cs.take 3).length = 3 && (cs.take 3).all Char.isDigit then
     (phoneVisRest (cs.drop 3)).map (fun n => (3, n)) else none) <|>
  (if (cs.take 2).length = 2 && (cs.take 2).all Char.isDigit then
     (phoneVisRest (cs.drop 2)).map (fun n => (2, n)) else none) <|>
  (if (cs.take 1).length = 1 && (cs.take 1).all Char.isDigit then
     (phoneVisRest (cs.drop 1)).map (fun n => (1, n)) else none)

/-- One match attempt of PHONE_RE, returning total length and the text of
capture group one (empty when the optional group did not participate).
re.findall on a one-group pattern collects exactly this capture. -/
def tryPhoneVis (cs : List Char) : Option (Nat × String) :=
  (match cs with
   | '+' :: rest =>
       (phoneVisDigits13 rest).map
         (fun dn => (1 + dn.1 + dn.2, String.mk ('+' :: rest.take dn.1)))
   | _ =>
       (phoneVisDigits13 cs).map (fun dn => (dn.1 + dn.2, String.mk (cs.take dn.1)))) <|>
  ((phoneVisRest cs).map (fun n => (n, "")))

/-- findall driver for a pattern with one capture group: scans like finditer
but collects the group text of each match; fueled like scanWithF. -/
def scanGroupWithF (tryM : List Char → Option (Nat × String)) : Nat → List Char → List String
  | _, [] => []
  | 0, _ :: _ => []
  | fuel + 1, c :: rest =>
      match tryM (c :: rest) with
      | some ns => ns.2 :: scanGroupWithF tryM fuel ((c :: rest).drop (max ns.1 1))
      | none => scanGroupWithF tryM fuel rest

def scanGroupWith (tryM : List Char → Option (Nat × String)) (cs : List Char) : List String :=
  scanGroupWithF tryM cs.length cs

/-- twitter_scraper_visible_text._extract_entities_from_text result. -/
structure Entities where
  emails : List String
  phones : List String
  hashtags : List String
deriving Repr, DecidableEq

/-- twitter_scraper_visible_text._extract_entities_from_text: findall each
pattern over the text and deduplicate keeping first-seen order. -/
def extract_entities_from_text (text : String) : Entities :=
  { emails := dedupe_keep_order (scanWith tryEmailVis text.data)
    phones := dedupe_keep_order (scanGroupWith tryPhoneVis text.data)
    hashtags := dedupe_keep_order (scanWith tryHash text.data) }

/-! twitter_scraper_meta._compact_to_int. -/

/-- Exception model: the only raise reachable in the embedded code is
int(float(inf)) overflowing. -/
inductive PyExc where
  | overflow : PyExc
deriving Repr, DecidableEq

/-- Value of a decimal digit string, exactly. -/
def digitsVal (ds : List Char) : Nat :=
  ds.foldl (fun acc c => acc * 10 + (c.toNat - '0'.toNat)) 0

/-- Python float() of the matched decimal text, as the exact rational
numerator over a power-of-ten denominator.  IEEE-754 rounding is not
modelled below the overflow threshold; the claims only exercise values
where the double arithmetic is exact (see the header note).  Returns none
for infinity, mirroring float overflow past two to the 1024th. -/
def floatOfParts (intPart fracPart : List Char) : Option (ℕ × ℕ) :=
  let den := 10 ^ fracPart.length
  let num := digitsVal intPart * den + digitsVal fracPart
  if num < 2 ^ 1024 * den then some (num, den) else none

/-- Regex match of compact_to_int's pattern digits dot-digits-optional
suffix-k-or-m-optional, anchored on the whole (stripped) string.
Returns the numeric parts and the optional suffix character. -/
def compactMatch (t : List Char) : Option ((List Char × List Char) × Option Char) :=
  let ip := t.takeWhile Char.isDigit
  if ip.length = 0 then none
  else
    let rest := t.drop ip.length
    match rest with
    | [] => some ((ip, []), none)
    | '.' :: rest2 =>
        let fp := rest2.takeWhile Char.isDigit
        if fp.length = 0 then none
        else
          match rest2.drop fp.length with
          | [] => some ((ip, fp), none)
          | [c] => if c = 'k' || c = 'm' then some ((ip, fp), some c) else none
          | _ => none
    | [c] => if c = 'k' || c = 'm' then some ((ip, []), some c) else none
    | _ => none

/-- Scale by the suffix and convert with int(), which truncates toward zero
(floor of numerator-times-scale over denominator for these non-negative
values); raises OverflowError on infinity.  The multiplication re-checks the
overflow threshold as float multiplication overflows to inf. -/
def compactFinish (q : Option (ℕ × ℕ)) (suf : Option Char) : Except PyExc (Option Int) :=
  match q with
  | none => .error .overflow
  | some (num, den) =>
      let scale : ℕ := if suf = some 'k' then 1000
        else if suf = some 'm' then 1000000 else 1
      if num * scale < 2 ^ 1024 * den then .ok (some ((num * scale) / den : ℕ))
      else .error .overflow

/-- twitter_scraper_meta._compact_to_int.  None or empty input gives None;
a full match of the compact pattern goes through float scaling and int();
otherwise all non-digits are stripped and the remaining digits (if any)
are read as a plain integer, which in Python never raises. -/
def compact_to_int (s : Option String) : Except PyExc (Option Int) :=
  match s with
  | none => .ok none
  | some s0 =>
      if s0.isEmpty then .ok none
      else
        let t := ((pyLower (pyStrip s0)).data).filter (fun c => c ≠ ',')
        match compactMatch t with
        | some ((ip, fp), suf) => compactFinish (floatOfParts ip fp) suf
        | none =>
            let digits := t.filter Char.isDigit
            if digits.isEmpty then .ok none
            else .ok (some (digitsVal digits : Int))

/-! URL handling (urllib.parse.urlsplit as used by the source). -/

/-- Python urlsplit input cleaning: strip C0-control-or-space at both ends,
remove tab, carriage return and newline everywhere. -/
def cleanControl (cs : List Char) : List Char :=
  let isC0 : Char → Bool := fun c => c.toNat ≤ 0x20
  (((cs.dropWhile isC0).reverse.dropWhile isC0).reverse).filter
    (fun c => !(c = '\t' || c = '\x0d' || c = '\n'))

def validSchemeChar (c : Char) : Bool :=
  c.isAlpha || c.isDigit || c = '+' || c = '-' || c = '.'

/-- urlsplit reduced to the components the source reads: scheme (lowered),
netloc, path (query and fragment stripped off the path). -/
def urlsplit3 (url : String) : String × String × String :=
  let cs := cleanControl url.data
  let pre := cs.takeWhile (fun c => c ≠ ':')
  let hasScheme := pre.length < cs.length && pre.length > 0 &&
    (pre.headD ' ').isAlpha && pre.all validSchemeChar
  let scheme := if hasScheme then String.mk (pre.map lowerCh) else ""
  let rest := if hasScheme then cs.drop (pre.length + 1) else cs
  match rest with
  | '/' :: '/' :: rest2 =>
      let nl := rest2.takeWhile (fun c => !(c = '/' || c = '?' || c = '#'))
      let after := rest2.drop nl.length
      (scheme, String.mk nl, String.mk (after.takeWhile (fun c => !(c = '?' || c = '#'))))
  | _ => (scheme, "", String.mk (rest.takeWhile (fun c => !(c = '?' || c = '#'))))

/-- twitter_scraper_meta._is_twitter: the lowered netloc contains
twitter.com or x.com as a substring. -/
def is_twitter (url : String) : Bool :=
  let host := pyLower (urlsplit3 url).2.1
  containsSub host "twitter.com" || containsSub host "x.com"

def rstripChar (c : Char) (s : String) : String :=
  String.mk (s.data.reverse.dropWhile (· = c)).reverse

def lstripChar (c : Char) (s : String) : String :=
  String.mk (s.data.dropWhile (· = c))

/-- twitter_scraper_visible_text._split_twitter_links: relative links are
resolved onto www.twitter.com, absolute ones are classified by host, and
external ones are rebuilt as scheme-netloc-path with trailing slashes
stripped; both output lists are deduplicated preserving order. -/
def split_twitter_links (links : List String) : List String × List String :=
  let classified := links.map (fun href =>
    if !startsWithL "http".data href.data then
      (Sum.inr ("https://www.twitter.com" ++ href) : Sum String String)
    else
      let (scheme, nl, path) := urlsplit3 href
      let host := pyLower nl
      if containsSub host "twitter.com" || containsSub host "x.com" then .inr href
      else
        let cleaned := if !scheme.isEmpty then scheme ++ "://" ++ nl ++ path else href
        .inl (rstripChar '/' cleaned))
  let externals := classified.filterMap (fun x => x.getLeft?)
  let twitters := classified.filterMap (fun x => x.getRight?)
  (dedupe_keep_order externals, dedupe_keep_order twitters)

/-! Strategy A: twitter_scraper_meta. -/

/-- Outcome of _goto: page.goto either loads (the soft networkidle wait
swallows its own timeout), times out (playwright TimeoutError), or raises
some other navigation error. -/
inductive NavOutcome where
  | ok : NavOutcome
  | timeout : NavOutcome
  | err : String → NavOutcome

/-- Page oracle for the structured-field strategy: per URL, the navigation
outcome, the text yielded per CSS selector (none models a missing element,
an empty text or a swallowed wait exception as the source swallows them),
and the og-description meta content. -/
structure MetaPage where
  nav : String → NavOutcome
  q : String → String → Option String
  og : String → Option String

/-- twitter_scraper_meta._first_text: first selector whose stripped text is
non-empty; selector failures are swallowed and scanning continues. -/
def first_text (q : String → Option String) : List String → Option String
  | [] => none
  | sel :: rest =>
      match q sel with
      | some t => let t2 := pyStrip t; if t2.isEmpty then first_text q rest else some t2
      | none => first_text q rest

def NAME_SEL : List String := ["div[data-testid=\x27UserName\x27] span"]
def HANDLE_SEL : List String := ["div[data-testid=\x27UserName\x27] div span:has-text(\x27@\x27)"]
def BIO_SEL : List String := ["div[data-testid=\x27UserDescription\x27] span"]
def FOLLOWERS_SEL : List String :=
  ["a[href$=\x27/verified_followers\x27] span", "a[href$=\x27/followers\x27] span"]
def FOLLOWING_SEL : List String := ["a[href$=\x27/following\x27] span"]

def optStrVal : Option String → Val
  | some s => .vstr s
  | none => .vnone

def optIntVal : Option Int → Val
  | some n => .vint n
  | none => .vnone

/-- Python str.split on a slash: every slash is a separator, empty pieces
kept, the empty string splitting to one empty piece. -/
def splitSlash (cs : List Char) : List (List Char) :=
  go cs []
where
  go : List Char → List Char → List (List Char)
    | [], cur => [cur.reverse]
    | '/' :: rest, cur => cur.reverse :: go rest []
    | c :: rest, cur => go rest (c :: cur)

/-- Python " ".join-style concatenation. -/
def joinWith (sep : String) : List String → String
  | [] => ""
  | [x] => x
  | x :: rest => x ++ sep ++ joinWith sep rest

/-- Python url.rstrip(slash).split(slash)[-1]. -/
def lastPathSeg (url : String) : String :=
  String.mk ((splitSlash (rstripChar '/' url).data).getLastD [])

/-- twitter_scraper_meta._extract_profile.  The only exception that can
escape it is the follower-count OverflowError path of _compact_to_int
(every selector read swallows its own failures), hence the Except. -/
def extract_profile (q : String → Option String) (ogDesc : Option String)
    (url : String) (now : Int) : Except PyExc Rec := do
  let name := first_text q NAME_SEL
  let handle0 := first_text q HANDLE_SEL
  let handle := match handle0 with
    | some h => some h
    | none => if !url.isEmpty then some ("@" ++ lastPathSeg url) else none
  let bio := first_text q BIO_SEL
  let followers := first_text q FOLLOWERS_SEL
  let following := first_text q FOLLOWING_SEL
  let followersNum ← compact_to_int followers
  let followingNum ← compact_to_int following
  let blob := joinWith " "
    [(name.getD ""), (handle.getD ""), (bio.getD ""), (ogDesc.getD "")]
  let c := contacts blob
  let result : Rec :=
    [("platform", .vstr "twitter"), ("twitter_link", .vstr url),
     ("name", optStrVal name), ("handle", optStrVal handle),
     ("bio", optStrVal bio), ("followers", optStrVal followers),
     ("followers_num", optIntVal followersNum),
     ("following", optStrVal following),
     ("following_num", optIntVal followingNum),
     ("emails", .vlist (c.emails.map .vstr)), ("phones", .vlist (c.phones.map .vstr)),
     ("scraped_at", .vint now)]
  if name.isNone && bio.isNone then
    return result.set "error" (.vstr "Failed to extract")
  return result

/-- The record appended on a per-URL navigation timeout. -/
def timeoutRec (link : String) (now : Int) : Rec :=
  [("platform", .vstr "twitter"), ("twitter_link", .vstr link),
   ("error", .vstr "Navigation timeout"), ("scraped_at", .vint now)]

/-- The URL normalization at the head of scrape_twitter_profiles_async:
filter truthy twitter URLs, strip, dedupe preserving order. -/
def metaNorm (urls : List String) : List String :=
  dedupe ((urls.filter (fun u => !u.isEmpty && is_twitter u)).map pyStrip)

/-- The per-URL loop of scrape_twitter_profiles_async: timeouts append an
error record and continue; any other exception escapes the loop, is caught
by the whole-batch handler, and the results gathered so far are returned. -/
def metaLoop (mp : MetaPage) (now : Int) : List String → List Rec → List Rec
  | [], acc => acc
  | l :: rest, acc =>
      match mp.nav l with
      | .timeout => metaLoop mp now rest (acc ++ [timeoutRec l now])
      | .err _ => acc
      | .ok =>
          match extract_profile (mp.q l) (mp.og l) l now with
          | .ok r => metaLoop mp now rest (acc ++ [r])
          | .error _ => acc

/-- twitter_scraper_meta.scrape_twitter_profiles_async. -/
def scrape_twitter_profiles_async (mp : MetaPage) (now : Int) (urls : List String) : List Rec :=
  metaLoop mp now (metaNorm urls) []

/-- What one URL of the meta loop contributes: its record when the URL is
handled per-URL (timeout record, or extracted record), none when an
exception escapes to the whole-batch handler. -/
def metaRecOf (mp : MetaPage) (now : Int) (u : String) : Option Rec :=
  match mp.nav u with
  | .timeout => some (timeoutRec u now)
  | .err _ => none
  | .ok =>
      match extract_profile (mp.q u) (mp.og u) u now with
      | .ok r => some r
      | .error _ => none

/-! Strategy B: twitter_scraper_visible_text. -/

/-- DOM captures of extract_visible_text_from_twitter_page, per URL, after
the scroll loop: for each tweet container the raw tweetText inner text and
the raw User-Name anchor href (none models the per-tweet read failing or
the attribute missing, both of which only skip that append), and the raw
href of every anchor on the page (none models a missing attribute). -/
structure VisPageData where
  tweets : List (Option String × Option String)
  links : List (Option String)

/-- twitter_scraper_visible_text.extract_visible_text_from_twitter_page,
below the DOM reads: normalize and collect tweet texts and users, pick the
main author and reply users, filter and classify links, extract entities. -/
def extract_visible_text_from_twitter_page (d : VisPageData) : Rec :=
  let allTextParts := d.tweets.filterMap (fun tw =>
    tw.1.bind (fun t => let tn := norm t; if tn.isEmpty then none else some tn))
  let allUsers := d.tweets.filterMap (fun tw =>
    match tw.1 with
    | none => none
    | some _ =>
        tw.2.bind (fun u =>
          let un := norm u
          if un.isEmpty then none else some (lstripChar '/' un)))
  let lines := dedupe_keep_order allTextParts
  let fullText := joinWith "\n" lines
  let dedupedUsers := dedupe_keep_order allUsers
  let mainAuthor := dedupedUsers.head?
  let replyUsers := dedupedUsers.tail
  let rawLinks := d.links.filterMap (fun h =>
    h.bind (fun href =>
      if !href.isEmpty &&
         !(containsSub href "/analytics" || containsSub href "/hashtag/" ||
           containsSub href "/search?q=") then some href else none))
  let (externalLinks, twitterLinks) := split_twitter_links (dedupe_keep_order rawLinks)
  let entities := extract_entities_from_text fullText
  [("author", optStrVal mainAuthor),
   ("main_tweet_text", optStrVal lines.head?),
   ("text", .vstr fullText),
   ("external_links", .vlist (externalLinks.map .vstr)),
   ("twitter_links", .vlist (twitterLinks.map .vstr)),
   ("reply_users", .vlist (replyUsers.map .vstr)),
   ("emails", .vlist (entities.emails.map .vstr)),
   ("phones", .vlist (entities.phones.map .vstr)),
   ("hashtags", .vlist (entities.hashtags.map .vstr))]

/-- Page oracle for the visible-text strategy: per URL, either the DOM
captures after navigation, waiting and popup dismissal succeed, or the
message of the exception raised anywhere in that per-URL body. -/
structure VisPage where
  outcome : String → Except String VisPageData

/-- One loop iteration of scrape_twitter_visible_text_seq: the item seeded
with platform, twitter_link and scraped_at; on success the extracted fields
are merged in, on any exception an error field with the exception text is
set instead; either way the item is appended. -/
def visOne (vp : VisPage) (now : Int) (url : String) : Rec :=
  let item : Rec :=
    [("platform", .vstr "twitter"), ("twitter_link", .vstr url), ("scraped_at", .vint now)]
  match vp.outcome url with
  | .ok d => item.update (extract_visible_text_from_twitter_page d)
  | .error e => item.set "error" (.vstr e)

/-- twitter_scraper_visible_text.scrape_twitter_visible_text_seq: one item
per input URL, in order, unconditionally. -/
def scrape_twitter_visible_text_seq (vp : VisPage) (now : Int) (urls : List String) : List Rec :=
  urls.map (visOne vp now)

/-! Reconciliation: scrapers/twitter_scraper.py. -/

/-- The join key of _merge_results: item.get twitter_link or item.get url
(Python or falls through on falsy values, absent keys read as None). -/
def join_key (item : Rec) : Val :=
  if truthy (item.getd "twitter_link") then item.getd "twitter_link" else item.getd "url"

def assocGet (acc : List (Val × Rec)) (k : Val) : Option Rec :=
  match acc with
  | [] => none
  | (k', v) :: rest => if k' = k then some v else assocGet rest k

def assocSet (acc : List (Val × Rec)) (k : Val) (v : Rec) : List (Val × Rec) :=
  match acc with
  | [] => [(k, v)]
  | (k', v') :: rest => if k' = k then (k', v) :: rest else (k', v') :: assocSet rest k v

/-- One iteration of the merge loop of _merge_results: items without a
truthy join key are skipped; otherwise the per-key accumulator entry
(freshly empty if new) is dict-updated with the item. -/
def merge_step (acc : List (Val × Rec)) (item : Rec) : List (Val × Rec) :=
  let k := join_key item
  if truthy k then
    match assocGet acc k with
    | some v => assocSet acc k (v.update item)
    | none => acc ++ [(k, Rec.update [] item)]
  else acc

/-- scrapers/twitter_scraper._merge_results: fold meta then visual results
into the keyed accumulator and return the accumulated dicts in insertion
order. -/
def merge_results (metaResults visualResults : List Rec) : List Rec :=
  ((metaResults ++ visualResults).foldl merge_step []).map Prod.snd

/-- Python value-or-empty-string used by the enrichment text blob
(item.get with empty default, then `or` with empty string).  A truthy
non-string here would make the Python join raise; no pipeline record
carries one, and the embedding reads it as empty. -/
def pyOrEmptyStr (o : Option Val) : String :=
  let v := o.getD (.vstr "")
  if truthy v then (match v with | .vstr s => s | _ => "") else ""

/-- Python item.get of a list field with empty-list default; a non-list
value would make Python list concatenation raise, which no pipeline record
triggers; the embedding reads it as empty. -/
def getListD (r : Rec) (k : String) : List Val :=
  match r.get k with
  | some (.vlist xs) => xs
  | some _ => []
  | none => []

/-- The contact-enrichment loop body of scrapers/twitter_scraper.main:
re-extract contacts from bio and main_tweet_text and set emails and phones
to the set union with the already present lists. -/
def enrich (item : Rec) : Rec :=
  let bioText := pyOrEmptyStr (item.get "bio")
  let tweetText := pyOrEmptyStr (item.get "main_tweet_text")
  let textBlob := bioText ++ " " ++ tweetText
  let c := contacts textBlob
  let em := pySetListV (getListD item "emails" ++ c.emails.map Val.vstr)
  let ph := pySetListV (getListD item "phones" ++ c.phones.map Val.vstr)
  (item.set "emails" (.vlist em)).set "phones" (.vlist ph)

/-- The pure reconciliation core of scrapers/twitter_scraper.main: merge the
two strategies' results, then enrich every merged record in place. -/
def reconcile (metaResults visualResults : List Rec) : List Rec :=
  (merge_results metaResults visualResults).map enrich

/-- scrapers/twitter_scraper.main without the storage branch: run both
strategies over the same URL list (each with its own page), merge, enrich. -/
def pipelineMain (mp : MetaPage) (vp : VisPage) (now : Int) (urls : List String) : List Rec :=
  reconcile (scrape_twitter_profiles_async mp now urls)
    (scrape_twitter_visible_text_seq vp now urls)

/-! Schema filtering: common/db_utils.py. -/

/-- alias.get(out_key): first binding of the alias table. -/
def aliasGet (aliasT : List (String × List String)) (k : String) : Option (List String) :=
  match aliasT with
  | [] => none
  | (k', v) :: rest => if k' = k then some v else aliasGet rest k

/-- The vals loop of filter_by_schema: the value of every candidate input
key that is present in the data and not None, in candidate order. -/
def candVals (data : Rec) (inKeys : List String) : List Val :=
  inKeys.filterMap (fun k =>
    match data.get k with
    | some v => if v = .vnone then none else some v
    | none => none)

/-- The uniq loop of filter_by_schema: order-preserving deduplication by
Python equality. -/
def dedupeVals (vals : List Val) : List Val :=
  go [] vals
where
  go (seen : List Val) : List Val → List Val
    | [] => []
    | v :: rest => if seen.contains v then go seen rest else v :: go (v :: seen) rest

/-- common/db_utils.filter_by_schema: one output entry per top-level schema
key, in schema order.  The source assigns out of an empty dict while
iterating the schema dict's keys, which are unique in a Python dict, so
every assignment is a fresh append; the direct recursion below is that
computation.  A single distinct candidate value is written as is, several
are written as the deduplicated list, none write None when fill_missing. -/
def filter_by_schema (data : Rec) (schemaObj : Rec) (fillMissing : Bool)
    (aliasT : List (String × List String)) : Rec :=
  match schemaObj with
  | [] => []
  | (outKey, _) :: rest =>
      let inKeys := (aliasGet aliasT outKey).getD [outKey]
      let uniq := dedupeVals (candVals data inKeys)
      (match uniq with
       | [] => if fillMissing then [(outKey, Val.vnone)] else []
       | [v] => [(outKey, v)]
       | vs => [(outKey, Val.vlist vs)]) ++ filter_by_schema data rest fillMissing aliasT

/-- common/db_utils.SCHEMA, the fixed nested schema template. -/
def SCHEMA : Rec :=
  [("url", .vstr ""),
   ("platform", .vstr "twitter"),
   ("content_type", .vstr ""),
   ("source", .vstr "twitter-scraper"),
   ("profile", .vdict
     [("username", .vstr ""), ("full_name", .vstr ""), ("bio", .vstr ""),
      ("location", .vstr ""), ("job_title", .vstr ""), ("employee_count", .vstr "")]),
   ("contact", .vdict
     [("emails", .vlist []), ("phone_numbers", .vlist []), ("address", .vstr ""),
      ("websites", .vlist []),
      ("social_media_handles", .vdict
        [("instagram", .vstr ""), ("twitter", .vstr ""), ("facebook", .vstr ""),
         ("linkedin", .vstr ""), ("youtube", .vstr ""), ("tiktok", .vstr ""),
         ("other", .vlist [])]),
      ("bio_links", .vlist [])]),
   ("content", .vdict
     [("caption", .vstr ""), ("upload_date", .vstr ""), ("channel_name", .vstr ""),
      ("author_name", .vstr "")]),
   ("metadata", .vdict
     [("scraped_at", .vstr ""), ("data_quality_score", .vstr "")]),
   ("industry", .vstr ""),
   ("revenue", .vstr ""),
   ("lead_category", .vstr ""),
   ("lead_sub_category", .vstr ""),
   ("company_name", .vstr ""),
   ("company_type", .vstr ""),
   ("decision_makers", .vstr ""),
   ("bdr", .vstr "AKG"),
   ("product_interests", .vstr ""),
   ("timeline", .vstr ""),
   ("interest_level", .vstr ""),
   ("icp_identifier", .vstr "")]

/-- scrapers/twitter_scraper.TWITTER_ALIAS. -/
def TWITTER_ALIAS : List (String × List String) :=
  [("url", ["twitter_link", "url"]),
   ("profile.username", ["handle", "username"]),
   ("profile.full_name", ["name", "full_name"]),
   ("profile.bio", ["bio"]),
   ("contact.emails", ["emails"]),
   ("contact.phone_numbers", ["phones", "phone_numbers"]),
   ("contact.websites", ["external_links"])]

/-! Supporting lemmas. -/

theorem Rec.get_eq_none_iff (r : Rec) (k : String) :
    Rec.get r k = none ↔ k ∉ r.map Prod.fst := by
  induction r with
  | nil => simp [Rec.get]
  | cons kv rest ih =>
      obtain ⟨k', v'⟩ := kv
      by_cases h : k' = k
      · subst h; simp [Rec.get]
      · simp [Rec.get, h, ih, Ne.symm h]

/-- For a record with Python-dict key discipline (no duplicate keys),
lookup in the reversed list agrees with lookup. -/
theorem Rec.get_reverse_of_nodup (r : Rec) (hk : (r.map Prod.fst).Nodup) (k : String) :
    Rec.get r.reverse k = Rec.get r k := by
  induction r with
  | nil => rfl
  | cons kv rest ih =>
      obtain ⟨k', v'⟩ := kv
      simp only [List.map_cons, List.nodup_cons] at hk
      rw [List.reverse_cons, Rec.get_append]
      by_cases h : k' = k
      · subst h
        have h0 : Rec.get rest.reverse k' = none := by
          rw [(Rec.get_eq_none_iff _ _)]
          simpa using hk.1
        simp [h0, Rec.get]
      · rw [ih hk.2]
        cases hr : Rec.get rest k <;> simp [Rec.get, h, hr]

theorem assocGet_isSome_iff (acc : List (Val × Rec)) (k : Val) :
    (assocGet acc k).isSome ↔ k ∈ acc.map Prod.fst := by
  induction acc with
  | nil => simp [assocGet]
  | cons kv rest ih =>
      obtain ⟨k', v'⟩ := kv
      by_cases h : k' = k
      · subst h; simp [assocGet]
      · simp [assocGet, h, ih, Ne.symm h]

theorem assocSet_map_fst (acc : List (Val × Rec)) (k : Val) (v : Rec)
    (h : k ∈ acc.map Prod.fst) :
    (assocSet acc k v).map Prod.fst = acc.map Prod.fst := by
  induction acc with
  | nil => simp at h
  | cons kv rest ih =>
      obtain ⟨k', v'⟩ := kv
      by_cases hk : k' = k
      · simp [assocSet, hk]
      · simp only [List.map_cons] at h
        simp [assocSet, hk, ih (by simpa [Ne.symm hk] using h)]

theorem mem_assocSet (acc : List (Val × Rec)) (k : Val) (v : Rec) (kv : Val × Rec)
    (h : kv ∈ assocSet acc k v) : kv.2 = v ∨ kv ∈ acc := by
  induction acc with
  | nil =>
      simp only [assocSet, List.mem_singleton] at h
      exact Or.inl (by simp [h])
  | cons kv' rest ih =>
      obtain ⟨k', v'⟩ := kv'
      by_cases hk : k' = k
      · rw [assocSet, if_pos hk] at h
        rcases List.mem_cons.mp h with h1 | h1
        · exact Or.inl (by simp [h1])
        · exact Or.inr (List.mem_cons_of_mem _ h1)
      · rw [assocSet, if_neg hk] at h
        rcases List.mem_cons.mp h with h1 | h1
        · exact Or.inr (by simp [h1])
        · rcases ih h1 with h2 | h2
          · exact Or.inl h2
          · exact Or.inr (List.mem_cons_of_mem _ h2)

/-- After a dict update with an item whose join key is truthy (and whose
keys are unique, as Python dicts are), the join key of the result is
truthy: the item either supplies the winning link field itself or leaves
a previously truthy one in place. -/
theorem truthy_join_key_update (v item : Rec)
    (hnd : (item.map Prod.fst).Nodup) (ht : truthy (join_key item)) :
    truthy (join_key (v.update item)) := by
  have hupd : ∀ k, (v.update item).get k =
      ((Rec.get item k).map some).getD (v.get k) := by
    intro k
    rw [Rec.get_update, Rec.get_reverse_of_nodup item hnd]
  unfold join_key at ht ⊢
  unfold Rec.getd at ht ⊢
  rw [hupd "twitter_link", hupd "url"]
  cases htl : Rec.get item "twitter_link" with
  | some t =>
      rw [htl] at ht
      simp only [Option.map_some', Option.getD_some] at ht ⊢
      cases htt : truthy t with
      | true => simp [htt]
      | false =>
          simp only [htt, Bool.false_eq_true, if_false] at ht ⊢
          cases hu : Rec.get item "url" with
          | some u => rw [hu] at ht; simpa using ht
          | none => rw [hu] at ht; simp [truthy] at ht
  | none =>
      rw [htl] at ht
      simp only [Option.map_none', Option.getD_none] at ht ⊢
      simp only [truthy, Bool.false_eq_true, if_false] at ht
      cases hu : Rec.get item "url" with
      | some u =>
          rw [hu] at ht
          simp only [Option.map_some', Option.getD_some] at ht ⊢
          cases hvt : truthy ((v.get "twitter_link").getD Val.vnone) with
          | true => simp [hvt]
          | false => simp only [hvt, Bool.false_eq_true, if_false]; simpa using ht
      | none => rw [hu] at ht; simp [truthy] at ht

/-- Every accumulator entry of the merge fold has a truthy join key,
provided the incoming items have unique keys. -/
theorem merge_fold_truthy : ∀ (items : List Rec) (acc : List (Val × Rec)),
    (∀ r ∈ items, (r.map Prod.fst).Nodup) →
    (∀ kv ∈ acc, truthy (join_key kv.2)) →
    ∀ kv ∈ items.foldl merge_step acc, truthy (join_key kv.2)
  | [], acc, _, hacc => by simpa using hacc
  | item :: rest, acc, hitems, hacc => by
      intro kv hkv
      have hnd := hitems item (by simp)
      refine merge_fold_truthy rest (merge_step acc item)
        (fun r hr => hitems r (by simp [hr])) ?_ kv hkv
      intro kv2 hkv2
      unfold merge_step at hkv2
      by_cases ht : truthy (join_key item)
      · simp only [ht, if_pos rfl] at hkv2
        cases hget : assocGet acc (join_key item) with
        | some v =>
            rw [hget] at hkv2
            rcases mem_assocSet _ _ _ _ hkv2 with h2 | h2
            · rw [h2]; exact truthy_join_key_update v item hnd ht
            · exact hacc kv2 h2
        | none =>
            rw [hget] at hkv2
            rcases List.mem_append.mp hkv2 with h2 | h2
            · exact hacc kv2 h2
            · simp only [List.mem_singleton] at h2
              rw [h2]
              exact truthy_join_key_update [] item hnd ht
      · simp only [ht, Bool.false_eq_true, if_neg] at hkv2
        exact hacc kv2 (by simpa using hkv2)

/-- Items without a truthy join key are skipped by the merge fold. -/
theorem merge_fold_filter (items : List Rec) (acc : List (Val × Rec)) :
    (items.filter (fun i => truthy (join_key i))).foldl merge_step acc =
      items.foldl merge_step acc := by
  induction items generalizing acc with
  | nil => rfl
  | cons item rest ih =>
      by_cases ht : truthy (join_key item)
      · simp only [List.filter_cons, ht, if_pos rfl, List.foldl_cons]
        exact ih _
      · simp only [List.filter_cons, ht, Bool.false_eq_true, if_neg, List.foldl_cons]
        have hstep : merge_step acc item = acc := by
          unfold merge_step
          simp [ht]
        rw [hstep]
        exact ih _

/-- Appending a key to an accumulator of distinct keys, the way the merge
fold grows its key list. -/
def addKey (ks : List Val) (k : Val) : List Val :=
  if k ∈ ks then ks else ks ++ [k]

theorem merge_step_map_fst (acc : List (Val × Rec)) (item : Rec) :
    (merge_step acc item).map Prod.fst =
      if truthy (join_key item) then addKey (acc.map Prod.fst) (join_key item)
      else acc.map Prod.fst := by
  by_cases ht : truthy (join_key item)
  · cases hget : assocGet acc (join_key item) with
    | some v =>
        have hmem : join_key item ∈ acc.map Prod.fst := by
          rw [← assocGet_isSome_iff]
          simp [hget]
        simp [merge_step, addKey, ht, hget, assocSet_map_fst _ _ _ hmem, hmem]
    | none =>
        have hmem : join_key item ∉ acc.map Prod.fst := by
          rw [← assocGet_isSome_iff]
          simp [hget]
        simp [merge_step, addKey, ht, hget, hmem]
  · simp [merge_step, addKey, ht]

theorem merge_fold_map_fst (items : List Rec) (acc : List (Val × Rec)) :
    (items.foldl merge_step acc).map Prod.fst =
      ((items.map join_key).filter truthy).foldl addKey (acc.map Prod.fst) := by
  induction items generalizing acc with
  | nil => rfl
  | cons item rest ih =>
      simp only [List.foldl_cons, List.map_cons, List.filter_cons]
      by_cases ht : truthy (join_key item)
      · rw [ih, merge_step_map_fst]
        simp [ht]
      · rw [ih, merge_step_map_fst]
        simp [ht]

theorem mem_addKey_foldl (zs : List Val) (acc : List Val) (k : Val) :
    k ∈ zs.foldl addKey acc ↔ k ∈ acc ∨ k ∈ zs := by
  induction zs generalizing acc with
  | nil => simp
  | cons z rest ih =>
      simp only [List.foldl_cons]
      by_cases hz : z ∈ acc
      · rw [show addKey acc z = acc from by simp [addKey, hz]]
        rw [ih]
        simp only [List.mem_cons]
        constructor
        · rintro (h | h)
          exacts [Or.inl h, Or.inr (Or.inr h)]
        · rintro (h | h | h)
          exacts [Or.inl h, Or.inl (h ▸ hz), Or.inr h]
      · rw [show addKey acc z = acc ++ [z] from by simp [addKey, hz]]
        rw [ih]
        simp only [List.mem_append, List.mem_singleton, List.mem_cons]
        tauto

theorem addKey_foldl_of_subset (zs : List Val) (acc : List Val)
    (h : ∀ z ∈ zs, z ∈ acc) : zs.foldl addKey acc = acc := by
  induction zs with
  | nil => rfl
  | cons z rest ih =>
      have hz : z ∈ acc := h z (by simp)
      simp only [List.foldl_cons, addKey, hz, if_pos rfl]
      exact ih (fun z2 hz2 => h z2 (by simp [hz2]))

theorem addKey_foldl_of_nodup (zs : List Val) : ∀ (acc : List Val),
    zs.Nodup → (∀ z ∈ zs, z ∉ acc) → zs.foldl addKey acc = acc ++ zs := by
  induction zs with
  | nil => intro acc _ _; simp
  | cons z rest ih =>
      intro acc hnd hdis
      have hz : z ∉ acc := hdis z (by simp)
      rw [List.foldl_cons, show addKey acc z = acc ++ [z] from by simp [addKey, hz]]
      rw [ih (acc ++ [z]) (List.nodup_cons.mp hnd).2]
      · simp
      · intro z2 hz2
        simp only [List.mem_append, List.mem_singleton]
        rintro (h2 | h2)
        · exact hdis z2 (by simp [hz2]) h2
        · exact (List.nodup_cons.mp hnd).1 (h2 ▸ hz2)

/-! dedupe behaves as an order-preserving set of its input. -/

theorem dedupe_go_mem : ∀ (xs seen : List String) (x : String),
    x ∈ dedupe.go seen xs ↔ x ∈ xs ∧ x ∉ seen
  | [], seen, x => by simp [dedupe.go]
  | y :: rest, seen, x => by
      cases hy : seen.contains y with
      | true =>
          have hy' : y ∈ seen := by simpa using hy
          rw [show dedupe.go seen (y :: rest) = dedupe.go seen rest from by
            simp [dedupe.go, hy']]
          rw [dedupe_go_mem rest seen x]
          simp only [List.mem_cons]
          constructor
          · rintro ⟨h1, h2⟩
            exact ⟨Or.inr h1, h2⟩
          · rintro ⟨h1 | h1, h2⟩
            · exact absurd (h1 ▸ hy') h2
            · exact ⟨h1, h2⟩
      | false =>
          have hy' : y ∉ seen := by simpa using hy
          rw [show dedupe.go seen (y :: rest) = y :: dedupe.go (y :: seen) rest from by
            simp [dedupe.go, hy']]
          simp only [List.mem_cons]
          rw [dedupe_go_mem rest (y :: seen) x]
          simp only [List.mem_cons]
          constructor
          · rintro (h1 | ⟨h2, h3⟩)
            · subst h1; exact ⟨Or.inl rfl, hy'⟩
            · push_neg at h3
              exact ⟨Or.inr h2, h3.2⟩
          · rintro ⟨h1 | h1, h2⟩
            · exact Or.inl h1
            · by_cases hxy : x = y
              · exact Or.inl hxy
              · refine Or.inr ⟨h1, ?_⟩
                intro hc
                rcases hc with hc1 | hc1
                · exact hxy hc1
                · exact h2 hc1

theorem dedupe_mem (xs : List String) (x : String) : x ∈ dedupe xs ↔ x ∈ xs := by
  unfold dedupe
  simp [dedupe_go_mem]

theorem dedupe_go_nodup : ∀ (xs seen : List String), (dedupe.go seen xs).Nodup
  | [], seen => by simp [dedupe.go]
  | y :: rest, seen => by
      cases hy : seen.contains y with
      | true =>
          have hy' : y ∈ seen := by simpa using hy
          rw [show dedupe.go seen (y :: rest) = dedupe.go seen rest from by
            simp [dedupe.go, hy']]
          exact dedupe_go_nodup rest seen
      | false =>
          have hy' : y ∉ seen := by simpa using hy
          rw [show dedupe.go seen (y :: rest) = y :: dedupe.go (y :: seen) rest from by
            simp [dedupe.go, hy']]
          refine List.nodup_cons.mpr ⟨fun hc => ?_, dedupe_go_nodup rest (y :: seen)⟩
          have h2 := (dedupe_go_mem rest (y :: seen) y).mp hc
          simp at h2

theorem dedupe_nodup (xs : List String) : (dedupe xs).Nodup :=
  dedupe_go_nodup xs []

/-! Batch-runner lemmas. -/

/-- When every URL of the list is handled per-URL (no exception escapes to
the batch handler), the meta loop yields exactly one record per URL in
order. -/
theorem metaLoop_all_ok (mp : MetaPage) (now : Int) :
    ∀ (ls : List String) (acc : List Rec),
    (∀ u ∈ ls, (metaRecOf mp now u).isSome) →
    metaLoop mp now ls acc = acc ++ ls.map (fun u => (metaRecOf mp now u).getD [])
  | [], acc, _ => by simp [metaLoop]
  | l :: rest, acc, h => by
      have hl := h l (by simp)
      have hrest : ∀ u ∈ rest, (metaRecOf mp now u).isSome :=
        fun u hu => h u (by simp [hu])
      unfold metaRecOf at hl
      cases hnav : mp.nav l with
      | timeout =>
          rw [show metaLoop mp now (l :: rest) acc =
              metaLoop mp now rest (acc ++ [timeoutRec l now]) from by
            simp [metaLoop, hnav]]
          rw [metaLoop_all_ok mp now rest _ hrest]
          simp [metaRecOf, hnav]
      | err e => rw [hnav] at hl; simp at hl
      | ok =>
          rw [hnav] at hl
          cases hex : extract_profile (mp.q l) (mp.og l) l now with
          | error e => rw [hex] at hl; simp at hl
          | ok r =>
              rw [show metaLoop mp now (l :: rest) acc =
                  metaLoop mp now rest (acc ++ [r]) from by
                simp [metaLoop, hnav, hex]]
              rw [metaLoop_all_ok mp now rest _ hrest]
              simp [metaRecOf, hnav, hex]

/-- When a URL raises a non-timeout exception, the meta loop returns only
what was accumulated before it: no record for the failing URL, and the
remaining URLs are never processed. -/
theorem metaLoop_stops (mp : MetaPage) (now : Int) :
    ∀ (pre : List String) (l : String) (rest : List String) (acc : List Rec),
    (∀ u ∈ pre, (metaRecOf mp now u).isSome) →
    metaRecOf mp now l = none →
    metaLoop mp now (pre ++ l :: rest) acc =
      acc ++ pre.map (fun u => (metaRecOf mp now u).getD [])
  | [], l, rest, acc, _, hl => by
      unfold metaRecOf at hl
      cases hnav : mp.nav l with
      | timeout => rw [hnav] at hl; simp at hl
      | err e => simp [metaLoop, hnav]
      | ok =>
          rw [hnav] at hl
          cases hex : extract_profile (mp.q l) (mp.og l) l now with
          | ok r => rw [hex] at hl; simp at hl
          | error e => simp [metaLoop, hnav, hex]
  | p :: pre, l, rest, acc, hpre, hl => by
      have hp := hpre p (by simp)
      have hpre2 : ∀ u ∈ pre, (metaRecOf mp now u).isSome :=
        fun u hu => hpre u (by simp [hu])
      unfold metaRecOf at hp
      cases hnav : mp.nav p with
      | timeout =>
          rw [show metaLoop mp now ((p :: pre) ++ l :: rest) acc =
              metaLoop mp now (pre ++ l :: rest) (acc ++ [timeoutRec p now]) from by
            simp [metaLoop, hnav]]
          rw [metaLoop_stops mp now pre l rest _ hpre2 hl]
          simp [metaRecOf, hnav]
      | err e => rw [hnav] at hp; simp at hp
      | ok =>
          rw [hnav] at hp
          cases hex : extract_profile (mp.q p) (mp.og p) p now with
          | error e => rw [hex] at hp; simp at hp
          | ok r =>
              rw [show metaLoop mp now ((p :: pre) ++ l :: rest) acc =
                  metaLoop mp now (pre ++ l :: rest) (acc ++ [r]) from by
                simp [metaLoop, hnav, hex]]
              rw [metaLoop_stops mp now pre l rest _ hpre2 hl]
              simp [metaRecOf, hnav, hex]

/-! Record-field lemmas for the batch records. -/

theorem extract_profile_twitter_link (q : String → Option String) (og : Option String)
    (url : String) (now : Int) (r : Rec)
    (hok : extract_profile q og url now = .ok r) :
    Rec.get r "twitter_link" = some (.vstr url) := by
  simp only [extract_profile, Bind.bind] at hok
  cases h1 : compact_to_int (first_text q FOLLOWERS_SEL) with
  | error e => rw [h1] at hok; simp [Except.bind] at hok
  | ok fn =>
      rw [h1] at hok
      cases h2 : compact_to_int (first_text q FOLLOWING_SEL) with
      | error e => rw [h2] at hok; simp [Except.bind] at hok
      | ok gn =>
          rw [h2] at hok
          simp only [Except.bind] at hok
          by_cases hcond : ((first_text q NAME_SEL).isNone && (first_text q BIO_SEL).isNone) = true
          · rw [if_pos hcond] at hok
            simp only [pure, Except.pure, Except.ok.injEq] at hok
            subst hok
            simp [Rec.set, Rec.get]
          · rw [if_neg hcond] at hok
            simp only [pure, Except.pure, Except.ok.injEq] at hok
            subst hok
            simp [Rec.get]

theorem timeoutRec_twitter_link (l : String) (now : Int) :
    Rec.get (timeoutRec l now) "twitter_link" = some (.vstr l) := by
  simp [timeoutRec, Rec.get]

theorem metaRecOf_twitter_link (mp : MetaPage) (now : Int) (u : String) (r : Rec)
    (h : metaRecOf mp now u = some r) :
    Rec.get r "twitter_link" = some (.vstr u) := by
  unfold metaRecOf at h
  cases hnav : mp.nav u with
  | timeout =>
      rw [hnav] at h
      simp only [Option.some.injEq] at h
      subst h
      exact timeoutRec_twitter_link u now
  | err e => rw [hnav] at h; simp at h
  | ok =>
      rw [hnav] at h
      cases hex : extract_profile (mp.q u) (mp.og u) u now with
      | error e => rw [hex] at h; simp at h
      | ok r2 =>
          rw [hex] at h
          simp only [Option.some.injEq] at h
          subst h
          exact extract_profile_twitter_link _ _ _ _ _ hex

theorem extract_visible_no_link_keys (d : VisPageData) :
    Rec.get (extract_visible_text_from_twitter_page d) "twitter_link" = none ∧
    Rec.get (extract_visible_text_from_twitter_page d) "url" = none := by
  constructor <;> simp [extract_visible_text_from_twitter_page, Rec.get]

theorem Rec.get_reverse_none (r : Rec) (k : String) (h : Rec.get r k = none) :
    Rec.get r.reverse k = none := by
  rw [Rec.get_eq_none_iff] at h ⊢
  simpa using h

theorem visOne_twitter_link (vp : VisPage) (now : Int) (url : String) :
    Rec.get (visOne vp now url) "twitter_link" = some (.vstr url) := by
  unfold visOne
  cases h : vp.outcome url with
  | error e => simp [Rec.set, Rec.get]
  | ok d =>
      rw [Rec.get_update]
      rw [Rec.get_reverse_none _ _ (extract_visible_no_link_keys d).1]
      simp [Rec.get]

/-- The join key of every record the batch runners emit for URL u is the
string u itself (truthy as soon as u is non-empty). -/
theorem join_key_of_twitter_link (r : Rec) (u : String)
    (h : Rec.get r "twitter_link" = some (.vstr u)) (hu : ¬u.isEmpty = true) :
    join_key r = .vstr u := by
  unfold join_key Rec.getd
  rw [h]
  simp only [Option.getD_some]
  rw [if_pos (by simpa [truthy] using hu)]

/-! Schema-filter lemmas. -/

/-- With fill_missing, the output of filter_by_schema binds exactly the
schema keys, in schema order. -/
theorem filter_by_schema_map_fst (data : Rec) (schemaObj : Rec)
    (aliasT : List (String × List String)) :
    (filter_by_schema data schemaObj true aliasT).map Prod.fst = schemaObj.map Prod.fst := by
  induction schemaObj with
  | nil => rfl
  | cons kv rest ih =>
      obtain ⟨k, v⟩ := kv
      show (_ ++ filter_by_schema data rest true aliasT).map Prod.fst = _
      rw [List.map_append, ih]
      cases h : dedupeVals (candVals data ((aliasGet aliasT k).getD [k])) with
      | nil => simp
      | cons v2 vs => cases vs <;> simp

/-- The value filter_by_schema writes under a schema key: None when no alias
candidate is present and non-None, the single distinct value when exactly one
remains after deduplication, the deduplicated list otherwise. -/
theorem filter_by_schema_get (data : Rec) (schemaObj : Rec)
    (aliasT : List (String × List String)) (k : String)
    (hk : k ∈ schemaObj.map Prod.fst) :
    (filter_by_schema data schemaObj true aliasT).get k =
      some (match dedupeVals (candVals data ((aliasGet aliasT k).getD [k])) with
            | [] => Val.vnone
            | [v] => v
            | vs => Val.vlist vs) := by
  induction schemaObj with
  | nil => simp at hk
  | cons kv rest ih =>
      obtain ⟨k', v'⟩ := kv
      show Rec.get (_ ++ filter_by_schema data rest true aliasT) k = _
      rw [Rec.get_append]
      by_cases hkk : k' = k
      · subst hkk
        cases h : dedupeVals (candVals data ((aliasGet aliasT k').getD [k'])) with
        | nil => simp [Rec.get]
        | cons v2 vs => cases vs <;> simp [Rec.get]
      · have hmem : k ∈ rest.map Prod.fst := by
          rcases List.mem_cons.mp hk with h | h
          · have hkk2 : k = k' := by simpa using h
            exact absurd hkk2.symm hkk
          · exact h
        rw [ih hmem]
        cases h : dedupeVals (candVals data ((aliasGet aliasT k').getD [k'])) with
        | nil => simp [Rec.get, hkk]
        | cons v2 vs => cases vs <;> simp [Rec.get, hkk]

/-! compact_to_int bounds. -/

theorem digit_sub_le (c : Char) (h : c.isDigit = true) : c.toNat - '0'.toNat ≤ 9 := by
  simp [Char.isDigit] at h
  obtain ⟨h1, h2⟩ := h
  have h3 : c.toNat ≤ 57 := by
    simpa [Char.le_def, Char.toNat] using h2
  have h4 : '0'.toNat = 48 := rfl
  omega

theorem digitsVal_go_lt : ∀ (ds : List Char) (acc : Nat),
    (∀ c ∈ ds, c.isDigit = true) →
    List.foldl (fun acc c => acc * 10 + (c.toNat - '0'.toNat)) acc ds < (acc + 1) * 10 ^ ds.length
  | [], acc, _ => by simp
  | c :: rest, acc, h => by
      have hc := digit_sub_le c (h c (by simp))
      have ih := digitsVal_go_lt rest (acc * 10 + (c.toNat - '0'.toNat))
        (fun x hx => h x (by simp [hx]))
      simp only [List.foldl_cons, List.length_cons]
      refine lt_of_lt_of_le ih ?_
      have h2 : acc * 10 + (c.toNat - '0'.toNat) + 1 ≤ (acc + 1) * 10 := by omega
      calc (acc * 10 + (c.toNat - '0'.toNat) + 1) * 10 ^ rest.length
          ≤ ((acc + 1) * 10) * 10 ^ rest.length := Nat.mul_le_mul_right _ h2
        _ = (acc + 1) * 10 ^ (rest.length + 1) := by ring

theorem digitsVal_lt (ds : List Char) (hds : ∀ c ∈ ds, c.isDigit = true) :
    digitsVal ds < 10 ^ ds.length := by
  have h := digitsVal_go_lt ds 0 hds
  simpa [digitsVal] using h

theorem compactMatch_inv (t ip fp : List Char) (suf : Option Char)
    (h : compactMatch t = some ((ip, fp), suf)) :
    (∀ c ∈ ip, c.isDigit = true) ∧ (∀ c ∈ fp, c.isDigit = true) ∧
    ip.length ≤ t.length := by
  have htw : ∀ (l : List Char), ∀ c ∈ l.takeWhile Char.isDigit, c.isDigit = true :=
    fun l c hc => List.mem_takeWhile_imp hc
  have hlen : (t.takeWhile Char.isDigit).length ≤ t.length :=
    (List.takeWhile_sublist _).length_le
  simp only [compactMatch] at h
  repeat' split at h
  all_goals
    first
      | exact Option.noConfusion h
      | (simp only [Option.some.injEq, Prod.mk.injEq] at h
         obtain ⟨⟨hip, hfp⟩, hs⟩ := h
         subst hip
         subst hfp
         first
           | exact ⟨htw _, htw _, hlen⟩
           | exact ⟨htw _, by simp, hlen⟩)

set_option maxRecDepth 4000 in
set_option exponentiation.threshold 2000 in
/-- Inputs whose cleaned text is at most 300 characters stay far below the
IEEE-double overflow threshold, so compact_to_int cannot raise on them. -/
theorem compact_ok_of_short (s0 : String)
    (h : (((pyLower (pyStrip s0)).data).filter (fun c => c ≠ ',')).length ≤ 300) :
    ∃ r, compact_to_int (some s0) = .ok r := by
  simp only [compact_to_int]
  by_cases he : s0.isEmpty
  · exact ⟨none, by rw [if_pos he]⟩
  · rw [if_neg he]
    cases hm : compactMatch (((pyLower (pyStrip s0)).data).filter (fun c => c ≠ ',')) with
    | none =>
        by_cases hd : ((((pyLower (pyStrip s0)).data).filter (fun c => c ≠ ',')).filter Char.isDigit).isEmpty
        · exact ⟨none, by simp only [hd, if_true]⟩
        · refine ⟨some (digitsVal ((((pyLower (pyStrip s0)).data).filter (fun c => c ≠ ',')).filter Char.isDigit) : Int), ?_⟩
          simp only [hd, Bool.false_eq_true, if_false]
    | some x =>
        obtain ⟨⟨ip, fp⟩, suf⟩ := x
        show ∃ r, compactFinish (floatOfParts ip fp) suf = Except.ok r
        obtain ⟨hipd, hfpd, hipl⟩ := compactMatch_inv _ ip fp suf hm
        have hip300 : ip.length ≤ 300 := le_trans hipl h
        have hipv : digitsVal ip < 10 ^ 300 :=
          lt_of_lt_of_le (digitsVal_lt ip hipd)
            (Nat.pow_le_pow_right (by norm_num) hip300)
        have hfpv : digitsVal fp < 10 ^ fp.length := digitsVal_lt fp hfpd
        set den := 10 ^ fp.length with hden
        set num := digitsVal ip * den + digitsVal fp with hnum
        have hnumlt : num < 10 ^ 300 * den := by
          calc num < digitsVal ip * den + den := by
                rw [hnum]
                exact Nat.add_lt_add_left hfpv _
            _ = (digitsVal ip + 1) * den := by ring
            _ ≤ 10 ^ 300 * den := Nat.mul_le_mul_right _ hipv
        have hpow1 : (10 : ℕ) ^ 300 ≤ 2 ^ 1024 := by norm_num
        have hpow2 : (10 : ℕ) ^ 300 * 1000000 ≤ 2 ^ 1024 := by norm_num
        have hfin : floatOfParts ip fp = some (num, den) := by
          simp only [floatOfParts, ← hden, ← hnum]
          rw [if_pos (lt_of_lt_of_le hnumlt (Nat.mul_le_mul_right _ hpow1))]
        rw [hfin]
        simp only [compactFinish]
        have hsc : num * (if suf = some 'k' then 1000
            else if suf = some 'm' then (1000000 : ℕ) else 1) < 2 ^ 1024 * den := by
          have hs6 : (if suf = some 'k' then 1000
              else if suf = some 'm' then (1000000 : ℕ) else 1) ≤ 1000000 := by
            split_ifs <;> norm_num
          calc num * _ ≤ num * 1000000 := Nat.mul_le_mul_left _ hs6
            _ < (10 ^ 300 * den) * 1000000 :=
                mul_lt_mul_of_pos_right hnumlt (by norm_num)
            _ = (10 ^ 300 * 1000000) * den := by ring
            _ ≤ 2 ^ 1024 * den :=
                Nat.mul_le_mul_right _ hpow2
        exact ⟨_, by rw [if_pos hsc]⟩

/-! Claim C1: merge precedence for emails and phones. -/

/-- Strategy A record of the spec's merge-precedence example. -/
def c1recA : Rec := [("url", .vstr "X"), ("bio", .vstr "a"), ("emails", .vlist [.vstr "e1"])]

/-- Strategy B record of the spec's merge-precedence example. -/
def c1recB : Rec := [("url", .vstr "X"), ("bio", .vstr "b"), ("emails", .vlist [.vstr "e2"])]

/-- Claim C1 counterexample: on the spec's own example the reconciled record
has bio b as claimed, but its emails list is exactly the later record's
list — e1 from Strategy A is absent, so the emails field is not the set
union of the two records' lists. -/
theorem C1_counterexample :
    (reconcile [c1recA] [c1recB]).map (fun r => r.get "bio") = [some (.vstr "b")] ∧
    (reconcile [c1recA] [c1recB]).map (fun r => r.get "emails") = [some (.vlist [.vstr "e2"])] ∧
    Val.vstr "e1" ∉ [Val.vstr "e2"] := by
  refine ⟨by decide, by decide, by decide⟩

/-- Claim C1 amended: _merge_results applies a shallow dict update for every
field, emails and phones included, so the later record wins wholesale on
any key collision; the only union performed afterwards is the contact
enrichment re-extracted from the record's final bio and main_tweet_text,
which cannot recover Strategy A's overwritten entries.  On the cited
example the merged record has bio b and emails exactly the list of e2. -/
theorem C1_merge_overwrite :
    (∀ a b : Rec, truthy (join_key a) = true → join_key b = join_key a →
      merge_results [a] [b] = [(Rec.update [] a).update b]) ∧
    (reconcile [c1recA] [c1recB]).map (fun r => r.get "bio") = [some (.vstr "b")] ∧
    (reconcile [c1recA] [c1recB]).map (fun r => r.get "emails") = [some (.vlist [.vstr "e2"])] := by
  refine ⟨?_, by decide, by decide⟩
  intro a b ht he
  unfold merge_results
  simp only [List.cons_append, List.nil_append, List.foldl_cons, List.foldl_nil]
  rw [show merge_step [] a = [(join_key a, Rec.update [] a)] from by
    simp [merge_step, ht, assocGet]]
  rw [show merge_step [(join_key a, Rec.update [] a)] b =
      [(join_key a, (Rec.update [] a).update b)] from by
    simp [merge_step, he, ht, assocGet, assocSet]]
  rfl

/-- Witness for the universally quantified part of C1_merge_overwrite. -/
theorem C1_merge_overwrite_witness :
    merge_results [c1recA] [c1recB] = [(Rec.update [] c1recA).update c1recB] :=
  C1_merge_overwrite.1 c1recA c1recB (by decide) (by decide)

/-! Claim C2: missing-field defaults through the Schema Mapper. -/

/-- A merged record lacking a bio field. -/
def c2dataNoBio : Rec := [("twitter_link", .vstr "https://x.com/a"), ("name", .vstr "A")]

/-- Claim C2 counterexample: mapping a record lacking bio does not keep the
template default at profile.bio.  The output has no profile.bio path at
all, its whole profile key is nulled to None, and that differs from the
template's profile object (which holds the empty-string bio default). -/
theorem C2_counterexample :
    (filter_by_schema c2dataNoBio SCHEMA true TWITTER_ALIAS).get "profile" = some Val.vnone ∧
    (filter_by_schema c2dataNoBio SCHEMA true TWITTER_ALIAS).get "profile.bio" = none ∧
    Rec.get SCHEMA "profile" ≠ some Val.vnone := by
  refine ⟨by decide, by decide, by decide⟩

/-- Claim C2 amended: filter_by_schema walks only the top-level schema keys,
so dot-delimited alias paths such as profile.bio never materialize in the
output; when no candidate for a top-level key is present and non-None in
the record, that key is written as None (fill_missing), not left at the
template default. -/
theorem C2_missing_nulls (data : Rec) :
    (candVals data ["profile"] = [] →
      (filter_by_schema data SCHEMA true TWITTER_ALIAS).get "profile" = some Val.vnone) ∧
    (filter_by_schema data SCHEMA true TWITTER_ALIAS).get "profile.bio" = none := by
  constructor
  · intro hcand
    rw [filter_by_schema_get data SCHEMA TWITTER_ALIAS "profile" (by decide)]
    rw [show (aliasGet TWITTER_ALIAS "profile").getD ["profile"] = ["profile"] from rfl]
    rw [hcand]
    rfl
  · rw [Rec.get_eq_none_iff, filter_by_schema_map_fst]
    decide

/-- Witness for C2_missing_nulls at the record lacking a bio. -/
theorem C2_missing_nulls_witness :
    (filter_by_schema c2dataNoBio SCHEMA true TWITTER_ALIAS).get "profile" = some Val.vnone ∧
    (filter_by_schema c2dataNoBio SCHEMA true TWITTER_ALIAS).get "profile.bio" = none :=
  ⟨(C2_missing_nulls c2dataNoBio).1 (by decide), (C2_missing_nulls c2dataNoBio).2⟩

/-! Claim C5: alias candidate resolution in the Schema Mapper. -/

/-- A record in which two candidates of the url alias list both hold
distinct values. -/
def c5data : Rec := [("twitter_link", .vstr "a"), ("url", .vstr "b")]

/-- Claim C5 counterexample: with both url candidates present and distinct,
the mapper writes the list of both values, not the first candidate's value
alone — later candidates are not ignored and the written value is a
combination. -/
theorem C5_counterexample :
    (filter_by_schema c5data SCHEMA true TWITTER_ALIAS).get "url" =
      some (.vlist [.vstr "a", .vstr "b"]) := by
  decide

/-- Claim C5 amended: filter_by_schema collects the values of all alias
candidates that are present and not None (an empty string qualifies),
deduplicates them preserving order, and writes the single value only when
exactly one distinct value remains, the whole list otherwise. -/
theorem C5_all_candidates (data : Rec) (v1 v2 : Val)
    (h1 : data.get "twitter_link" = some v1) (hv1 : v1 ≠ .vnone)
    (h2 : data.get "url" = some v2) (hv2 : v2 ≠ .vnone) :
    (filter_by_schema data SCHEMA true TWITTER_ALIAS).get "url" =
      some (if v1 = v2 then v1 else .vlist [v1, v2]) := by
  rw [filter_by_schema_get data SCHEMA TWITTER_ALIAS "url" (by decide)]
  rw [show (aliasGet TWITTER_ALIAS "url").getD ["url"] = ["twitter_link", "url"] from rfl]
  rw [show candVals data ["twitter_link", "url"] = [v1, v2] from by
    simp [candVals, h1, h2, hv1, hv2]]
  by_cases hv : v1 = v2
  · subst hv
    rw [show dedupeVals [v1, v1] = [v1] from by simp [dedupeVals, dedupeVals.go]]
    simp
  · rw [show dedupeVals [v1, v2] = [v1, v2] from by
      simp [dedupeVals, dedupeVals.go, hv, Ne.symm hv]]
    simp [hv]

/-- Witness for C5_all_candidates at the two-candidate record. -/
theorem C5_all_candidates_witness :
    (filter_by_schema c5data SCHEMA true TWITTER_ALIAS).get "url" =
      some (if Val.vstr "a" = Val.vstr "b" then Val.vstr "a"
            else .vlist [.vstr "a", .vstr "b"]) :=
  C5_all_candidates c5data (.vstr "a") (.vstr "b") (by decide) (by decide) (by decide) (by decide)

/-! Claim C6: the total-failure heuristic of the structured extractor. -/

/-- Claim C6: for every page state and URL on which the extractor returns a
record, that record carries error Failed-to-extract exactly when both the
display name and the bio selectors produced nothing, and every other field
of the record (handle, counts, contacts, timestamp) is still present. -/
theorem C6_error_iff_no_name_no_bio (q : String → Option String) (og : Option String)
    (url : String) (now : Int) (r : Rec)
    (hok : extract_profile q og url now = .ok r) :
    ((r.get "error" = some (.vstr "Failed to extract")) ↔
      (first_text q NAME_SEL = none ∧ first_text q BIO_SEL = none)) ∧
    (∀ k ∈ ["platform", "twitter_link", "name", "handle", "bio", "followers",
            "followers_num", "following", "following_num", "emails", "phones",
            "scraped_at"], (r.get k).isSome = true) := by
  simp only [extract_profile, Bind.bind] at hok
  cases h1 : compact_to_int (first_text q FOLLOWERS_SEL) with
  | error e => rw [h1] at hok; simp [Except.bind] at hok
  | ok fn =>
      rw [h1] at hok
      cases h2 : compact_to_int (first_text q FOLLOWING_SEL) with
      | error e => rw [h2] at hok; simp [Except.bind] at hok
      | ok gn =>
          rw [h2] at hok
          simp only [Except.bind] at hok
          by_cases hcond : ((first_text q NAME_SEL).isNone && (first_text q BIO_SEL).isNone) = true
          · rw [if_pos hcond] at hok
            simp only [pure, Except.pure, Except.ok.injEq] at hok
            subst hok
            simp only [Bool.and_eq_true, Option.isNone_iff_eq_none] at hcond
            constructor
            · simpa [Rec.set, Rec.get] using hcond
            · intro k hk
              fin_cases hk <;> simp [Rec.set, Rec.get]
          · rw [if_neg hcond] at hok
            simp only [pure, Except.pure, Except.ok.injEq] at hok
            subst hok
            simp only [Bool.and_eq_true, Option.isNone_iff_eq_none] at hcond
            constructor
            · simpa [Rec.get] using hcond
            · intro k hk
              fin_cases hk <;> simp [Rec.get]

/-- Witness for C6 at a page on which every selector fails: the record is
returned, carries the error tag, and keeps all other fields. -/
theorem C6_error_iff_no_name_no_bio_witness :
    ((Rec.get [("platform", Val.vstr "twitter"), ("twitter_link", Val.vstr "https://x.com/u"),
        ("name", Val.vnone), ("handle", Val.vstr "@u"), ("bio", Val.vnone),
        ("followers", Val.vnone), ("followers_num", Val.vnone), ("following", Val.vnone),
        ("following_num", Val.vnone), ("emails", Val.vlist []), ("phones", Val.vlist []),
        ("scraped_at", Val.vint 0), ("error", Val.vstr "Failed to extract")] "error" =
      some (.vstr "Failed to extract")) ↔
      (first_text (fun _ => none) NAME_SEL = none ∧ first_text (fun _ => none) BIO_SEL = none)) ∧
    (∀ k ∈ ["platform", "twitter_link", "name", "handle", "bio", "followers",
            "followers_num", "following", "following_num", "emails", "phones",
            "scraped_at"],
      (Rec.get [("platform", Val.vstr "twitter"), ("twitter_link", Val.vstr "https://x.com/u"),
        ("name", Val.vnone), ("handle", Val.vstr "@u"), ("bio", Val.vnone),
        ("followers", Val.vnone), ("followers_num", Val.vnone), ("following", Val.vnone),
        ("following_num", Val.vnone), ("emails", Val.vlist []), ("phones", Val.vlist []),
        ("scraped_at", Val.vint 0), ("error", Val.vstr "Failed to extract")] k).isSome = true) :=
  C6_error_iff_no_name_no_bio (fun _ => none) none "https://x.com/u" 0 _ (by rfl)

/-! Claim C7: compact_to_int examples and totality. -/

set_option maxRecDepth 20000 in
set_option exponentiation.threshold 2000 in
/-- Claim C7 counterexample: a four-hundred-nines count string makes the
Python code raise OverflowError (float() parses it to infinity and int()
of infinity raises), so compact_to_int does not return integer-or-null on
every input. -/
theorem C7_counterexample :
    compact_to_int (some (String.mk (List.replicate 400 '9'))) = .error .overflow := rfl

set_option maxRecDepth 20000 in
set_option exponentiation.threshold 2000 in
/-- Claim C7 amended: the five cited examples evaluate as stated, and the
function returns an integer or null on every input whose cleaned text
(stripped, lowered, commas removed) is at most 300 characters — far below
the IEEE-double overflow threshold; longer all-digit inputs can overflow
float() to infinity and raise. -/
theorem C7_examples_and_no_overflow :
    compact_to_int (some "12.3K") = .ok (some 12300) ∧
    compact_to_int (some "1.2M") = .ok (some 1200000) ∧
    compact_to_int (some "1,234") = .ok (some 1234) ∧
    compact_to_int (some "") = .ok none ∧
    compact_to_int (some "abc") = .ok none ∧
    (∀ s : String, (((pyLower (pyStrip s)).data).filter (fun c => c ≠ ',')).length ≤ 300 →
      ∃ r, compact_to_int (some s) = .ok r) :=
  ⟨rfl, rfl, rfl, rfl, rfl, compact_ok_of_short⟩

set_option maxRecDepth 20000 in
set_option exponentiation.threshold 2000 in
/-- Witness for the bounded-input part of C7_examples_and_no_overflow. -/
theorem C7_examples_and_no_overflow_witness :
    ∃ r, compact_to_int (some "7.5K") = .ok r :=
  C7_examples_and_no_overflow.2.2.2.2.2 "7.5K" (by decide)

/-! Claim C8: entity deduplication order. -/

/-- Claim C8 on the visible-text extractor: on the spec's blob the email
matches arrive in text order with the duplicate, and _dedupe_keep_order
yields the first-seen-order duplicate-free list the claim states.  The
meta-side _contacts, by contrast, deduplicates through a Python set whose
iteration order is hash-randomized (see the header note), which is the
code bug this claim exposes. -/
theorem C8_visible_text_entities :
    extract_entities_from_text "a@x.com a@x.com b@y.com" =
      { emails := ["a@x.com", "b@y.com"], phones := [], hashtags := [] } ∧
    scanWith tryEmailMeta ("a@x.com a@x.com b@y.com".data) =
      ["a@x.com", "a@x.com", "b@y.com"] :=
  ⟨rfl, rfl⟩

/-! Claim C9: determinism of the Reconciliation Engine. -/

/-- Claim C9: merge followed by enrichment is a pure function of the two
strategy result lists, so running it twice on the same inputs yields
identical outputs. -/
theorem C9_reconcile_deterministic (a b : List Rec) : reconcile a b = reconcile a b := rfl

/-! Claim C10: the merge step's join-key invariant. -/

def c10recA : Rec := [("twitter_link", .vstr "K"), ("x", .vint 1)]

def c10recB : Rec := [("url", .vstr "K"), ("y", .vint 2)]

/-- Claim C10: every record _merge_results emits has a truthy join key
derived from its twitter_link or url field (given dict key uniqueness of
the inputs), and records whose join key is falsy contribute nothing to the
output — dropping them from the inputs leaves the result unchanged. -/
theorem C10_merge_key_invariant :
    (∀ (a b : List Rec), (∀ r ∈ a ++ b, (r.map Prod.fst).Nodup) →
      ∀ r ∈ merge_results a b, truthy (join_key r) = true) ∧
    (∀ (a b : List Rec),
      merge_results (a.filter (fun i => truthy (join_key i)))
        (b.filter (fun i => truthy (join_key i))) = merge_results a b) := by
  constructor
  · intro a b hnd r hr
    unfold merge_results at hr
    obtain ⟨kv, hkv, hkvr⟩ := List.mem_map.mp hr
    rw [← hkvr]
    exact merge_fold_truthy (a ++ b) [] hnd (by simp) kv hkv
  · intro a b
    unfold merge_results
    rw [← List.filter_append]
    rw [merge_fold_filter]

/-- Witness for the quantified parts of C10_merge_key_invariant. -/
theorem C10_merge_key_invariant_witness :
    (∀ r ∈ merge_results [c10recA] [c10recB], truthy (join_key r) = true) ∧
    merge_results (List.filter (fun i => truthy (join_key i)) [c10recA])
      (List.filter (fun i => truthy (join_key i)) [c10recB]) =
      merge_results [c10recA] [c10recB] :=
  ⟨C10_merge_key_invariant.1 [c10recA] [c10recB] (by decide),
   C10_merge_key_invariant.2 [c10recA] [c10recB]⟩

/-! Claim C3: per-URL exception handling in the batch runners. -/

/-- A meta page whose first URL raises a non-timeout navigation error and
whose second URL would succeed. -/
def c3mpBad : MetaPage :=
  { nav := fun u => if u = "https://x.com/a" then .err "boom" else .ok
    q := fun _ _ => none
    og := fun _ => none }

/-- Claim C3 counterexample: both URLs are valid and in the normalized list,
yet a non-timeout exception on the first URL makes the meta batch return
an empty list — no error-tagged record for the failing URL, and the second
URL is never processed, so the batch is truncated. -/
theorem C3_counterexample :
    scrape_twitter_profiles_async c3mpBad 0 ["https://x.com/a", "https://x.com/b"] = [] ∧
    metaNorm ["https://x.com/a", "https://x.com/b"] = ["https://x.com/a", "https://x.com/b"] :=
  ⟨rfl, rfl⟩

/-- Claim C3 amended: the visible-text runner behaves as claimed — one record
per URL unconditionally, and any exception on a URL yields that URL's record
tagged with the exception text.  The meta runner converts only navigation
timeouts per-URL; any other exception escapes its per-URL handling, is
caught by the whole-batch handler, and the loop returns only the records of
the URLs already processed — no error record for the failing URL, nothing
for the rest. -/
theorem C3_batch_behavior :
    (∀ (vp : VisPage) (now : Int) (urls : List String),
      scrape_twitter_visible_text_seq vp now urls = urls.map (visOne vp now)) ∧
    (∀ (vp : VisPage) (now : Int) (url e : String), vp.outcome url = .error e →
      Rec.get (visOne vp now url) "error" = some (.vstr e)) ∧
    (∀ (mp : MetaPage) (now : Int) (pre : List String) (l : String) (rest : List String),
      (∀ u ∈ pre, (metaRecOf mp now u).isSome) → metaRecOf mp now l = none →
      metaLoop mp now (pre ++ l :: rest) [] =
        pre.map (fun u => (metaRecOf mp now u).getD [])) := by
  refine ⟨fun _ _ _ => rfl, ?_, ?_⟩
  · intro vp now url e hout
    unfold visOne
    rw [hout]
    simp [Rec.set, Rec.get]
  · intro mp now pre l rest hpre hl
    rw [metaLoop_stops mp now pre l rest [] hpre hl]
    rfl

/-- Witness for the quantified parts of C3_batch_behavior, at a page whose
outcome is an error and at the aborting meta page. -/
theorem C3_batch_behavior_witness :
    Rec.get (visOne { outcome := fun _ => .error "net::ERR_FAILED" } 0 "https://x.com/a")
      "error" = some (.vstr "net::ERR_FAILED") ∧
    metaLoop c3mpBad 0 ([] ++ "https://x.com/a" :: ["https://x.com/b"]) [] =
      [].map (fun u => (metaRecOf c3mpBad 0 u).getD []) :=
  ⟨C3_batch_behavior.2.1 { outcome := fun _ => .error "net::ERR_FAILED" } 0
      "https://x.com/a" "net::ERR_FAILED" rfl,
   C3_batch_behavior.2.2 c3mpBad 0 [] "https://x.com/a" ["https://x.com/b"]
      (by simp) (by rfl)⟩

/-! Claim C4: one output record per valid deduplicated input URL. -/

/-- A meta page that always navigates and extracts (selectors all empty). -/
def c4mpOk : MetaPage := { nav := fun _ => .ok, q := fun _ _ => none, og := fun _ => none }

/-- A visible-text page that always raises a navigation error. -/
def c4vpErr : VisPage := { outcome := fun _ => .error "net::ERR_FAILED" }

/-- Claim C4 counterexample: a non-twitter URL is filtered out by the meta
runner (the valid deduplicated input is empty), yet the visible-text runner
processes every raw URL, so the pipeline emits one record — the output
length does not equal the length of the deduplicated valid input. -/
theorem C4_counterexample :
    (pipelineMain c4mpOk c4vpErr 0 ["https://other.com/a"]).length = 1 ∧
    metaNorm ["https://other.com/a"] = [] :=
  ⟨rfl, rfl⟩

/-- Claim C4 amended: when every input URL is non-empty, already stripped
and on the twitter domain, and the meta runner handles every deduplicated
URL per-URL (no non-timeout exception), the pipeline emits exactly one
record per deduplicated input URL.  In general the two runners disagree on
filtering — the visible-text runner processes every raw URL — so the
output counts distinct join keys across both runners instead. -/
theorem C4_output_length (mp : MetaPage) (vp : VisPage) (now : Int) (urls : List String)
    (h1 : ∀ u ∈ urls, u.isEmpty = false)
    (h2 : ∀ u ∈ urls, pyStrip u = u)
    (h3 : ∀ u ∈ urls, is_twitter u = true)
    (h4 : ∀ u ∈ dedupe urls, (metaRecOf mp now u).isSome) :
    (pipelineMain mp vp now urls).length = (dedupe urls).length := by
  have hnorm : metaNorm urls = dedupe urls := by
    unfold metaNorm
    have hfil : urls.filter (fun u => !u.isEmpty && is_twitter u) = urls := by
      rw [List.filter_eq_self]
      intro u hu
      simp [h1 u hu, h3 u hu]
    rw [hfil]
    have hmap : urls.map pyStrip = urls := by
      conv_rhs => rw [← List.map_id urls]
      exact List.map_congr_left h2
    rw [hmap]
  have hmeta : scrape_twitter_profiles_async mp now urls =
      (dedupe urls).map (fun u => (metaRecOf mp now u).getD []) := by
    unfold scrape_twitter_profiles_async
    rw [hnorm, metaLoop_all_ok mp now (dedupe urls) [] h4]
    rfl
  have hkeymeta : ∀ u ∈ dedupe urls, join_key ((metaRecOf mp now u).getD []) = .vstr u := by
    intro u hu
    obtain ⟨r, hr⟩ := Option.isSome_iff_exists.mp (h4 u hu)
    rw [hr]
    simp only [Option.getD_some]
    exact join_key_of_twitter_link r u (metaRecOf_twitter_link mp now u r hr)
      (by simp [h1 u ((dedupe_mem urls u).mp hu)])
  have hkeyvis : ∀ u ∈ urls, join_key (visOne vp now u) = .vstr u := by
    intro u hu
    exact join_key_of_twitter_link _ u (visOne_twitter_link vp now u) (by simp [h1 u hu])
  unfold pipelineMain reconcile merge_results
  rw [List.length_map, List.length_map]
  rw [show (List.foldl merge_step []
        (scrape_twitter_profiles_async mp now urls ++
          scrape_twitter_visible_text_seq vp now urls)).length =
      ((List.foldl merge_step []
        (scrape_twitter_profiles_async mp now urls ++
          scrape_twitter_visible_text_seq vp now urls)).map Prod.fst).length from
    (List.length_map _ _).symm]
  rw [merge_fold_map_fst]
  have hjoin : (scrape_twitter_profiles_async mp now urls ++
      scrape_twitter_visible_text_seq vp now urls).map join_key =
      (dedupe urls).map Val.vstr ++ urls.map Val.vstr := by
    rw [List.map_append, hmeta]
    unfold scrape_twitter_visible_text_seq
    rw [List.map_map, List.map_map]
    congr 1
    · exact List.map_congr_left hkeymeta
    · exact List.map_congr_left hkeyvis
  rw [hjoin]
  have htruthy : ((dedupe urls).map Val.vstr ++ urls.map Val.vstr).filter truthy =
      (dedupe urls).map Val.vstr ++ urls.map Val.vstr := by
    rw [List.filter_eq_self]
    intro v hv
    rcases List.mem_append.mp hv with hv2 | hv2
    · obtain ⟨u, hu, rfl⟩ := List.mem_map.mp hv2
      simp [truthy, h1 u ((dedupe_mem urls u).mp hu)]
    · obtain ⟨u, hu, rfl⟩ := List.mem_map.mp hv2
      simp [truthy, h1 u hu]
  rw [htruthy]
  rw [List.foldl_append]
  have hnodup : ((dedupe urls).map Val.vstr).Nodup :=
    (dedupe_nodup urls).map (fun a b hab => Val.vstr.inj hab)
  have hin : List.foldl addKey [] ((dedupe urls).map Val.vstr) =
      (dedupe urls).map Val.vstr := by
    have h0 := addKey_foldl_of_nodup ((dedupe urls).map Val.vstr) [] hnodup
      (fun z _ => List.not_mem_nil z)
    simpa using h0
  simp only [List.map_nil]
  rw [hin]
  rw [addKey_foldl_of_subset (urls.map Val.vstr) ((dedupe urls).map Val.vstr)
    (fun z hz => by
      obtain ⟨u, hu, rfl⟩ := List.mem_map.mp hz
      exact List.mem_map_of_mem _ ((dedupe_mem urls u).mpr hu))]
  rw [List.length_map]

/-- Witness for C4_output_length: three well-formed URLs with one duplicate
give a two-record pipeline output. -/
theorem C4_output_length_witness :
    (pipelineMain c4mpOk c4vpErr 0
      ["https://x.com/a", "https://x.com/a", "https://x.com/b"]).length =
    (dedupe ["https://x.com/a", "https://x.com/a", "https://x.com/b"]).length :=
  C4_output_length c4mpOk c4vpErr 0 ["https://x.com/a", "https://x.com/a", "https://x.com/b"]
    (by decide) (by decide) (by decide) (by decide)

end TwitterScraper
